import Mathlib

/-!
Shallow embedding of the `ai-finance-advisor` repository (FastAPI + SQLAlchemy
personal-finance advisor) and proofs about its advice pipeline.

Conventions:
* Python `float` values are modelled as exact rationals (`ℚ`);
* Python `str` values are modelled as `List Char` (`PyStr`), with the
  Python string operations (`strip`, `lower`, `split`, `join`, `in`)
  redefined faithfully below;
* fallible code (code that can raise) returns `Except Unit _`;
* calls to the external OpenAI service and to the database are abstracted
  as explicit parameters describing the outcome of each call, so that the
  orchestration code translated here stays exactly the source's.
-/

/-- Python `str` modelled as a list of characters. -/
abbrev PyStr := List Char

/-- The set of characters Python `str.split()` / `str.strip()` treat as
whitespace (ASCII space, tab, newline, carriage return, vertical tab,
form feed). -/
def pyIsSpace (c : Char) : Bool :=
  c.toNat = 32 || c.toNat = 9 || c.toNat = 10 || c.toNat = 13 ||
  c.toNat = 11 || c.toNat = 12

/-- ASCII lower-casing of one character, as Python `str.lower` does on
ASCII data: `A`..`Z` (codes 65..90) map to `a`..`z` (codes 97..122). -/
def pyToLower (c : Char) : Char :=
  if 65 ≤ c.toNat ∧ c.toNat ≤ 90 then Char.ofNat (c.toNat + 32) else c

/-- Python `s.lower()`. -/
def pyLower (s : PyStr) : PyStr := s.map pyToLower

/-- Python `s.strip()`: drop whitespace from both ends. -/
def pyStrip (s : PyStr) : PyStr :=
  ((s.dropWhile pyIsSpace).reverse.dropWhile pyIsSpace).reverse

/-- Accumulator-based splitter: `pyWordsAux s acc` processes `s` with the
(reversed) current word `acc`. -/
def pyWordsAux : PyStr → PyStr → List PyStr
  | [], acc => if acc = [] then [] else [acc.reverse]
  | c :: cs, acc =>
    if pyIsSpace c then
      if acc = [] then pyWordsAux cs [] else acc.reverse :: pyWordsAux cs []
    else
      pyWordsAux cs (c :: acc)

/-- Python `s.split()` (no separator argument): split on runs of
whitespace, discarding empty pieces. -/
def pyWords (s : PyStr) : List PyStr := pyWordsAux s []

/-- Python `" ".join(ws)`. -/
def pyUnwords : List PyStr → PyStr
  | [] => []
  | [w] => w
  | w :: ws => w ++ Char.ofNat 32 :: pyUnwords ws

/-- Python `needle in hay` on strings: substring containment. -/
def pyIn (needle hay : PyStr) : Bool :=
  hay.tails.any (fun t => needle.isPrefixOf t)

/-- Python truthiness-based `or` on an optional string:
`a or b` where `a : Optional[str]` — `None` and `""` are falsy. -/
def pyOrOpt (a : Option PyStr) (b : PyStr) : PyStr :=
  match a with
  | none => b
  | some s => if s = [] then b else s

/-! ### `advisor.py` — grouping & math helpers -/

/-- Source `advisor.normalize_key`:
```python
def normalize_key(desc, merchant_raw, merchant_enriched):
    base = (merchant_enriched or merchant_raw or desc or "").strip().lower()
    return " ".join(base.split())
```
(`desc or ""` is the identity on strings: it yields `desc` when nonempty
and `""` — which equals `desc` — when empty.) -/
def normalize_key (desc : PyStr) (merchant_raw merchant_enriched : Option PyStr) : PyStr :=
  let base := pyLower (pyStrip (pyOrOpt merchant_enriched (pyOrOpt merchant_raw desc)))
  pyUnwords (pyWords base)

/-- Source `advisor.estimate_monthly_from_window`:
```python
def estimate_monthly_from_window(total_in_window, days):
    if days <= 0:
        return total_in_window
    return total_in_window * (30.0 / float(days))
```
-/
def estimate_monthly_from_window (total_in_window : ℚ) (days : ℤ) : ℚ :=
  if days ≤ 0 then total_in_window
  else total_in_window * (30 / (days : ℚ))

/-! ### `finance_utils.py` -/

/-- Source `finance_utils.future_value_monthly_contrib`:
```python
def future_value_monthly_contrib(contrib_per_month, annual_rate, years):
    if annual_rate <= -1:
        return 0.0
    r = annual_rate / 12.0
    n = years * 12
    if r == 0:
        return contrib_per_month * n
    return contrib_per_month * (((1 + r) ** n - 1) / r)
```
-/
def future_value_monthly_contrib (contrib_per_month annual_rate : ℚ) (years : ℤ) : ℚ :=
  if annual_rate ≤ -1 then 0
  else
    let r := annual_rate / 12
    let n := years * 12
    if r = 0 then contrib_per_month * n
    else contrib_per_month * (((1 + r) ^ n - 1) / r)

/-! ### Basic character-level lemmas -/

theorem char_toNat_ofNat_valid (n : ℕ) (h : n < 55296) : (Char.ofNat n).toNat = n := by
  unfold Char.ofNat
  rw [dif_pos (Or.inl h)]
  rfl

theorem pyToLower_toNat_of_upper {c : Char} (h : 65 ≤ c.toNat ∧ c.toNat ≤ 90) :
    (pyToLower c).toNat = c.toNat + 32 := by
  unfold pyToLower
  rw [if_pos h, char_toNat_ofNat_valid]
  omega

theorem pyToLower_idem (c : Char) : pyToLower (pyToLower c) = pyToLower c := by
  by_cases h : 65 ≤ c.toNat ∧ c.toNat ≤ 90
  · have ht := pyToLower_toNat_of_upper h
    unfold pyToLower
    rw [if_pos h]
    rw [if_neg]
    unfold pyToLower at ht
    rw [if_pos h] at ht
    omega
  · unfold pyToLower
    rw [if_neg h, if_neg h]

theorem pyIsSpace_pyToLower (c : Char) : pyIsSpace (pyToLower c) = pyIsSpace c := by
  by_cases h : 65 ≤ c.toNat ∧ c.toNat ≤ 90
  · have ht := pyToLower_toNat_of_upper h
    have l : pyIsSpace (pyToLower c) = false := by
      simp only [pyIsSpace, ht]
      simp only [Bool.or_eq_false_iff, decide_eq_false_iff_not]
      refine ⟨⟨⟨⟨⟨?_, ?_⟩, ?_⟩, ?_⟩, ?_⟩, ?_⟩ <;> omega
    have r : pyIsSpace c = false := by
      simp only [pyIsSpace]
      simp only [Bool.or_eq_false_iff, decide_eq_false_iff_not]
      refine ⟨⟨⟨⟨⟨?_, ?_⟩, ?_⟩, ?_⟩, ?_⟩, ?_⟩ <;> omega
    rw [l, r]
  · unfold pyToLower
    rw [if_neg h]

/-! ### Split/join lemmas -/

theorem pyWordsAux_all_space {sp : PyStr} (h : ∀ c ∈ sp, pyIsSpace c = true) (acc : PyStr) :
    pyWordsAux sp acc = if acc = [] then [] else [acc.reverse] := by
  induction sp generalizing acc with
  | nil => rfl
  | cons c cs ih =>
    have hc : pyIsSpace c = true := h c (List.mem_cons_self c cs)
    have hcs : ∀ x ∈ cs, pyIsSpace x = true := fun x hx => h x (List.mem_cons_of_mem c hx)
    by_cases ha : acc = []
    · subst ha
      simp only [pyWordsAux, hc, if_pos rfl, if_true]
      exact ih hcs []
    · simp only [pyWordsAux, hc, if_true, if_neg ha]
      rw [ih hcs []]
      simp

theorem pyWordsAux_append_space {x sp : PyStr} (h : ∀ c ∈ sp, pyIsSpace c = true)
    (acc : PyStr) : pyWordsAux (x ++ sp) acc = pyWordsAux x acc := by
  induction x generalizing acc with
  | nil =>
    simp only [List.nil_append]
    rw [pyWordsAux_all_space h acc]
    rfl
  | cons c cs ih =>
    simp only [List.cons_append, pyWordsAux]
    by_cases hc : pyIsSpace c
    · simp only [hc, if_true]
      by_cases ha : acc = [] <;> simp [ha, ih]
    · simp only [hc, Bool.false_eq_true, if_false]
      exact ih (c :: acc)

theorem pyWords_append_space {x sp : PyStr} (h : ∀ c ∈ sp, pyIsSpace c = true) :
    pyWords (x ++ sp) = pyWords x :=
  pyWordsAux_append_space h []

theorem pyWords_dropWhile (s : PyStr) :
    pyWords (s.dropWhile pyIsSpace) = pyWords s := by
  induction s with
  | nil => rfl
  | cons c cs ih =>
    by_cases hc : pyIsSpace c
    · rw [List.dropWhile_cons_of_pos hc]
      rw [ih]
      simp only [pyWords, pyWordsAux, hc, if_true, if_pos rfl]
    · rw [List.dropWhile_cons_of_neg (by simp [hc])]

theorem pyWords_pyStrip (s : PyStr) : pyWords (pyStrip s) = pyWords s := by
  unfold pyStrip
  set t := s.dropWhile pyIsSpace with ht
  have h1 : pyWords t = pyWords s := pyWords_dropWhile s
  have hdecomp : t = (t.reverse.dropWhile pyIsSpace).reverse ++
      (t.reverse.takeWhile pyIsSpace).reverse := by
    have h2 : t.reverse.takeWhile pyIsSpace ++ t.reverse.dropWhile pyIsSpace = t.reverse :=
      List.takeWhile_append_dropWhile _ _
    calc t = t.reverse.reverse := (List.reverse_reverse t).symm
      _ = (t.reverse.takeWhile pyIsSpace ++ t.reverse.dropWhile pyIsSpace).reverse := by
          rw [h2]
      _ = (t.reverse.dropWhile pyIsSpace).reverse ++
          (t.reverse.takeWhile pyIsSpace).reverse := List.reverse_append _ _
  have hsp : ∀ c ∈ (t.reverse.takeWhile pyIsSpace).reverse, pyIsSpace c = true := by
    intro c hc
    rw [List.mem_reverse] at hc
    exact List.mem_takeWhile_imp hc
  calc pyWords (t.reverse.dropWhile pyIsSpace).reverse
      = pyWords ((t.reverse.dropWhile pyIsSpace).reverse ++
          (t.reverse.takeWhile pyIsSpace).reverse) := (pyWords_append_space hsp).symm
    _ = pyWords t := by rw [← hdecomp]
    _ = pyWords s := h1

theorem pyWordsAux_good {cs acc : PyStr} (hacc : ∀ c ∈ acc, pyIsSpace c = false) :
    ∀ w ∈ pyWordsAux cs acc, w ≠ [] ∧ ∀ c ∈ w, pyIsSpace c = false := by
  induction cs generalizing acc with
  | nil =>
    intro w hw
    simp only [pyWordsAux] at hw
    by_cases ha : acc = []
    · simp [ha] at hw
    · rw [if_neg ha] at hw
      rcases List.mem_singleton.mp hw with rfl
      refine ⟨by simpa using ha, ?_⟩
      intro c hc
      exact hacc c (List.mem_reverse.mp hc)
  | cons c cs ih =>
    intro w hw
    simp only [pyWordsAux] at hw
    by_cases hc : pyIsSpace c
    · rw [if_pos hc] at hw
      by_cases ha : acc = []
      · rw [if_pos ha] at hw
        exact ih (by simp) w hw
      · rw [if_neg ha] at hw
        rcases List.mem_cons.mp hw with rfl | hw2
        · refine ⟨by simpa using ha, ?_⟩
          intro d hd
          exact hacc d (List.mem_reverse.mp hd)
        · exact ih (by simp) w hw2
    · simp only [hc, Bool.false_eq_true, if_false] at hw
      refine ih ?_ w hw
      intro d hd
      rcases List.mem_cons.mp hd with rfl | hd2
      · simpa using hc
      · exact hacc d hd2

theorem pyWords_good (s : PyStr) :
    ∀ w ∈ pyWords s, w ≠ [] ∧ ∀ c ∈ w, pyIsSpace c = false :=
  pyWordsAux_good (by simp)

theorem pyWordsAux_lower (cs acc : PyStr) :
    pyWordsAux (pyLower cs) (pyLower acc) = (pyWordsAux cs acc).map pyLower := by
  induction cs generalizing acc with
  | nil =>
    simp only [pyLower, pyWordsAux, List.map_nil]
    by_cases ha : acc = []
    · simp [ha]
    · rw [if_neg ha, if_neg (by simpa [List.map_eq_nil_iff] using ha)]
      simp [pyLower]
  | cons c cs ih =>
    simp only [pyLower, List.map_cons, pyWordsAux, pyIsSpace_pyToLower c]
    by_cases hc : pyIsSpace c
    · simp only [hc, if_true]
      by_cases ha : acc = []
      · subst ha
        simpa [pyLower] using ih []
      · rw [if_neg (by simpa [pyLower, List.map_eq_nil_iff] using ha), if_neg ha]
        have := ih []
        simp only [pyLower, List.map_nil] at this
        simp [pyLower, this]
    · simp only [hc, Bool.false_eq_true, if_false]
      have := ih (c :: acc)
      simpa [pyLower] using this

theorem pyWords_pyLower (s : PyStr) :
    pyWords (pyLower s) = (pyWords s).map pyLower := by
  have := pyWordsAux_lower s []
  simpa [pyWords, pyLower] using this

theorem pyLower_idem (s : PyStr) : pyLower (pyLower s) = pyLower s := by
  simp only [pyLower, List.map_map]
  exact List.map_congr_left (fun c _ => pyToLower_idem c)

theorem takeWhile_eq_of_all {α : Type} {p : α → Bool} {l : List α}
    (h : ∀ c ∈ l, p c = true) : l.takeWhile p = l := by
  induction l with
  | nil => rfl
  | cons a l ih =>
    rw [List.takeWhile_cons_of_pos (h a (List.mem_cons_self a l))]
    rw [ih (fun c hc => h c (List.mem_cons_of_mem a hc))]

theorem dropWhile_eq_nil_of_all {α : Type} {p : α → Bool} {l : List α}
    (h : ∀ c ∈ l, p c = true) : l.dropWhile p = [] := by
  induction l with
  | nil => rfl
  | cons a l ih =>
    rw [List.dropWhile_cons_of_pos (h a (List.mem_cons_self a l))]
    exact ih (fun c hc => h c (List.mem_cons_of_mem a hc))

theorem takeWhile_append_of_all {α : Type} {p : α → Bool} {a b : List α}
    (h : ∀ c ∈ a, p c = true) : (a ++ b).takeWhile p = a ++ b.takeWhile p := by
  induction a with
  | nil => simp
  | cons x xs ih =>
    rw [List.cons_append, List.takeWhile_cons_of_pos (h x (List.mem_cons_self x xs))]
    rw [ih (fun c hc => h c (List.mem_cons_of_mem x hc))]
    rfl

theorem dropWhile_append_of_all {α : Type} {p : α → Bool} {a b : List α}
    (h : ∀ c ∈ a, p c = true) : (a ++ b).dropWhile p = b.dropWhile p := by
  induction a with
  | nil => simp
  | cons x xs ih =>
    rw [List.cons_append, List.dropWhile_cons_of_pos (h x (List.mem_cons_self x xs))]
    exact ih (fun c hc => h c (List.mem_cons_of_mem x hc))

/-- Negation of `pyIsSpace`, named so rewriting with `takeWhile`/`dropWhile`
lemmas is stable. -/
def pyNotSpace (c : Char) : Bool := !pyIsSpace c

theorem pyNotSpace_eq_true {c : Char} (hc : pyIsSpace c = false) : pyNotSpace c = true := by
  simp [pyNotSpace, hc]

theorem pyNotSpace_eq_false {c : Char} (hc : pyIsSpace c = true) : ¬ pyNotSpace c = true := by
  simp [pyNotSpace, hc]

theorem pyWordsAux_cons_eq (cs : PyStr) (a : Char) (acc : PyStr) :
    pyWordsAux cs (a :: acc) =
      ((a :: acc).reverse ++ cs.takeWhile pyNotSpace) ::
        pyWords (cs.dropWhile pyNotSpace) := by
  induction cs generalizing a acc with
  | nil => simp [pyWordsAux, pyWords]
  | cons c cs ih =>
    by_cases hc : pyIsSpace c
    · have hq : ¬ (pyNotSpace c = true) := pyNotSpace_eq_false hc
      have hl : pyWordsAux (c :: cs) (a :: acc) = (a :: acc).reverse :: pyWordsAux cs [] := by
        simp only [pyWordsAux, hc, if_true, if_neg (List.cons_ne_nil a acc)]
      rw [hl, List.takeWhile_cons_of_neg hq, List.dropWhile_cons_of_neg hq]
      have hw : pyWords (c :: cs) = pyWords cs := by
        simp only [pyWords, pyWordsAux, hc, if_true, if_pos rfl]
      rw [hw, List.append_nil]
      rfl
    · have hq : pyNotSpace c = true := pyNotSpace_eq_true (by simpa using hc)
      have hl : pyWordsAux (c :: cs) (a :: acc) = pyWordsAux cs (c :: a :: acc) := by
        simp only [pyWordsAux, if_neg hc]
      rw [hl, ih c (a :: acc), List.takeWhile_cons_of_pos hq, List.dropWhile_cons_of_pos hq]
      simp [List.append_assoc]

theorem pyWords_cons_of_space {c : Char} (cs : PyStr) (hc : pyIsSpace c = true) :
    pyWords (c :: cs) = pyWords cs := by
  simp only [pyWords, pyWordsAux, hc, if_true, if_pos rfl]

theorem pyWords_cons_of_nonspace {c : Char} (cs : PyStr) (hc : pyIsSpace c = false) :
    pyWords (c :: cs) =
      (c :: cs.takeWhile pyNotSpace) ::
        pyWords (cs.dropWhile pyNotSpace) := by
  simp only [pyWords, pyWordsAux, hc, Bool.false_eq_true, if_false]
  exact pyWordsAux_cons_eq cs c []

theorem space_char_isSpace : pyIsSpace (Char.ofNat 32) = true := by decide

theorem pyWords_pyUnwords {ws : List PyStr}
    (h : ∀ w ∈ ws, w ≠ [] ∧ ∀ c ∈ w, pyIsSpace c = false) :
    pyWords (pyUnwords ws) = ws := by
  induction ws with
  | nil => rfl
  | cons w ws ih =>
    obtain ⟨hne, hchars⟩ := h w (List.mem_cons_self w ws)
    obtain ⟨a, w', rfl⟩ := List.exists_cons_of_ne_nil hne
    have ha : pyIsSpace a = false := hchars a (List.mem_cons_self a w')
    have hw' : ∀ c ∈ w', pyNotSpace c = true := by
      intro c hc
      exact pyNotSpace_eq_true (hchars c (List.mem_cons_of_mem a hc))
    cases ws with
    | nil =>
      simp only [pyUnwords]
      rw [pyWords_cons_of_nonspace w' ha, takeWhile_eq_of_all hw',
        dropWhile_eq_nil_of_all hw']
      rfl
    | cons w2 ws' =>
      have ihp : pyWords (pyUnwords (w2 :: ws')) = w2 :: ws' :=
        ih (fun x hx => h x (List.mem_cons_of_mem (a :: w') hx))
      have hsp : ¬ pyNotSpace (Char.ofNat 32) = true := pyNotSpace_eq_false space_char_isSpace
      show pyWords ((a :: w') ++ Char.ofNat 32 :: pyUnwords (w2 :: ws')) = _
      rw [List.cons_append, pyWords_cons_of_nonspace _ ha]
      rw [takeWhile_append_of_all hw', dropWhile_append_of_all hw']
      rw [List.takeWhile_cons_of_neg hsp, List.dropWhile_cons_of_neg hsp]
      rw [pyWords_cons_of_space _ space_char_isSpace, ihp]
      simp

theorem pyLower_eq_self_of_fixed {s : PyStr} (h : ∀ c ∈ s, pyToLower c = c) :
    pyLower s = s := by
  induction s with
  | nil => rfl
  | cons c cs ih =>
    simp only [pyLower, List.map_cons]
    rw [h c (List.mem_cons_self c cs)]
    have := ih (fun d hd => h d (List.mem_cons_of_mem c hd))
    simp only [pyLower] at this
    rw [this]

theorem pyWords_pyLower_pyStrip (s : PyStr) :
    pyWords (pyLower (pyStrip s)) = pyWords (pyLower s) := by
  rw [pyWords_pyLower, pyWords_pyStrip, ← pyWords_pyLower]

theorem normalize_key_eq (d : PyStr) (mr me : Option PyStr) :
    normalize_key d mr me = pyUnwords (pyWords (pyLower (pyOrOpt me (pyOrOpt mr d)))) := by
  unfold normalize_key
  simp only []
  rw [pyWords_pyLower_pyStrip]

theorem canonical_fixpoint (s : PyStr) :
    pyUnwords (pyWords (pyLower (pyUnwords (pyWords (pyLower s))))) =
      pyUnwords (pyWords (pyLower s)) := by
  have hgood : ∀ w ∈ pyWords (pyLower s), w ≠ [] ∧ ∀ c ∈ w, pyIsSpace c = false :=
    pyWords_good _
  rw [pyWords_pyLower (pyUnwords (pyWords (pyLower s))), pyWords_pyUnwords hgood]
  have hfix : (pyWords (pyLower s)).map pyLower = pyWords (pyLower s) := by
    rw [pyWords_pyLower, List.map_map]
    exact List.map_congr_left (fun w _ => pyLower_idem w)
  rw [hfix]

/-- **C8.** `normalize_key` is deterministic; it is idempotent (feeding the
produced key back in as the source string yields the same key); and the key
depends only on the case-folded word sequence of the selected source string
(enriched merchant, else raw merchant, else description), hence is invariant
under letter-case changes and leading/trailing/internal whitespace
variation of that string. -/
theorem normalize_key_deterministic_idem_invariant :
    (∀ d d2 : PyStr, ∀ mr mr2 me me2 : Option PyStr, d = d2 → mr = mr2 → me = me2 →
        normalize_key d mr me = normalize_key d2 mr2 me2) ∧
    (∀ d : PyStr, ∀ mr me : Option PyStr,
        normalize_key (normalize_key d mr me) none none = normalize_key d mr me) ∧
    (∀ d d2 : PyStr, ∀ mr mr2 me me2 : Option PyStr,
        pyWords (pyLower (pyOrOpt me (pyOrOpt mr d))) =
          pyWords (pyLower (pyOrOpt me2 (pyOrOpt mr2 d2))) →
        normalize_key d mr me = normalize_key d2 mr2 me2) := by
  refine ⟨?_, ?_, ?_⟩
  · intro d d2 mr mr2 me me2 h1 h2 h3
    rw [h1, h2, h3]
  · intro d mr me
    rw [normalize_key_eq d mr me, normalize_key_eq _ none none]
    show pyUnwords (pyWords (pyLower (pyUnwords (pyWords (pyLower _))))) = _
    exact canonical_fixpoint _
  · intro d d2 mr mr2 me me2 h
    rw [normalize_key_eq d mr me, normalize_key_eq d2 mr2 me2, h]

/-- Witness for C8: the invariance part applied to two concrete source
strings differing in case and whitespace only. -/
theorem normalize_key_invariant_witness :
    normalize_key ("  NetFLIX   Standard Plan ".toList) none none =
      normalize_key ("netflix standard  plan".toList) none none :=
  normalize_key_deterministic_idem_invariant.2.2 _ _ none none none none (by decide)

/-! ### Claims C3 and C9 -/

/-- **C3.** For all `(total, days)`: with `days > 0`,
`estimate_monthly_from_window total days = total * 30 / days`; with
`days ≤ 0` it returns `total` unchanged. -/
theorem estimate_monthly_from_window_spec (total : ℚ) (days : ℤ) :
    (0 < days → estimate_monthly_from_window total days = total * 30 / (days : ℚ)) ∧
    (days ≤ 0 → estimate_monthly_from_window total days = total) := by
  constructor
  · intro h
    unfold estimate_monthly_from_window
    rw [if_neg (by omega), mul_div_assoc]
  · intro h
    unfold estimate_monthly_from_window
    rw [if_pos h]

/-- Witness for C3 at `(60, 90)` and `(60, -5)`. -/
theorem estimate_monthly_from_window_witness :
    estimate_monthly_from_window 60 90 = 60 * 30 / (90 : ℚ) ∧
    estimate_monthly_from_window 60 (-5) = 60 :=
  ⟨((estimate_monthly_from_window_spec 60 90).1 (by norm_num)).trans (by norm_num),
   (estimate_monthly_from_window_spec 60 (-5)).2 (by norm_num)⟩

/-- **C9.** `future_value_monthly_contrib` returns exactly `0` whenever
`annual_rate ≤ -1`, whatever the (possibly nonzero) contribution and the
number of years. -/
theorem future_value_zero_of_rate_le_neg_one (c rate : ℚ) (years : ℤ)
    (h : rate ≤ -1) : future_value_monthly_contrib c rate years = 0 := by
  unfold future_value_monthly_contrib
  rw [if_pos h]

/-- Witness for C9: nonzero contribution, rate `-2`. -/
theorem future_value_zero_witness : future_value_monthly_contrib 50 (-2) 10 = 0 :=
  future_value_zero_of_rate_le_neg_one 50 (-2) 10 (by norm_num)

/-! ### `main.py` — data model of the advice batch run -/

/-- The fields of the ORM `Transaction` used by `run_advice_analysis`. -/
structure Transaction where
  id : ℕ
  amount : ℚ
  description : PyStr
  merchant_raw : Option PyStr
deriving DecidableEq

/-- The fields of the ORM `EnrichedTransaction` used by `run_advice_analysis`. -/
structure EnrichedTransaction where
  merchant : Option PyStr
  category : Option PyStr
  is_subscription : Bool
  spending_class : Option PyStr
deriving DecidableEq

/-- One entry of the `groups` dict built by `run_advice_analysis`:
```python
groups[key] = {"transactions": [], "total_amount": 0.0,
               "sample_transaction": t, "sample_enrichment": e}
```
-/
structure TxGroup where
  transactions : List Transaction
  total_amount : ℚ
  sample_transaction : Transaction
  sample_enrichment : Option EnrichedTransaction
deriving DecidableEq

/-- The `is_viable` field of the recipe card returned by
`advisor.suggest_recipe_for` (which never raises: its `try/except` returns a
fallback card with `is_viable = True`); the card's prose fields only feed
the insight body text and are not modelled. -/
structure Recipe where
  is_viable : Bool
deriving DecidableEq

/-- The fields of the ORM `AdviceInsight` populated by `run_advice_analysis`,
except the prose `title`/`body`/`meta` strings; of the body text we keep only
the flag recording whether the homemade-recipe block was appended
(`if recipe.get('is_viable', True)` in the source). -/
structure AdviceInsight where
  kind : PyStr
  monthly_saving : Option ℚ
  annual_saving : Option ℚ
  projection_10y : Option ℚ
  confidence : ℚ
  tx_ids : List ℕ
  recipe_in_body : Bool
deriving DecidableEq

/-- The `switch`/`monitor` branch condition of `run_advice_analysis`:
`if alternative and "no known cheaper alternatives" not in alternative.lower():`. -/
def indicates_cheaper (alternative : PyStr) : Bool :=
  !alternative.isEmpty &&
    !pyIn ("no known cheaper alternatives".toList) (pyLower alternative)

/-- The monthly cost the subscription branch uses:
`monthly_cost = est_monthly if len(txs) > 1 else abs(float(sample_tx.amount))`. -/
def monthly_cost_of (days : ℤ) (g : TxGroup) : ℚ :=
  if 1 < g.transactions.length then estimate_monthly_from_window g.total_amount days
  else |g.sample_transaction.amount|

/-- Body of the `for key, group in groups.items()` loop of
`main.run_advice_analysis` (lines 386-488), for one group.

* `alt` is the outcome of the external call `find_cheaper_alt(key,
  monthly_cost)`: that function calls the OpenAI client with no exception
  handling, so it either returns the reply text or raises (`.error`);
* `recipeFor item_context merchant_name` is the recipe card returned by
  `suggest_recipe_for` (total — see `Recipe`);
* `.ok l` holds the insights the iteration adds via `db.add`. -/
def processGroup (days : ℤ) (alt : PyStr → ℚ → Except Unit PyStr)
    (recipeFor : PyStr → PyStr → Recipe) (key : PyStr) (g : TxGroup) :
    Except Unit (List AdviceInsight) :=
  match g.sample_enrichment with
  | none => .ok []
  | some sample_enriched =>
    let est_monthly := estimate_monthly_from_window g.total_amount days
    let tx_ids := g.transactions.map (fun t => t.id)
    if sample_enriched.is_subscription then
      let monthly_cost := monthly_cost_of days g
      match alt key monthly_cost with
      | .error e => .error e
      | .ok alternative =>
        if indicates_cheaper alternative then
          let potential_savings := monthly_cost * 0.2
          .ok [{ kind := "switch".toList,
                 monthly_saving := some potential_savings,
                 annual_saving := some (potential_savings * 12),
                 projection_10y := some (future_value_monthly_contrib potential_savings 0.07 10),
                 confidence := 0.75,
                 tx_ids := tx_ids.take 5,
                 recipe_in_body := false }]
        else
          .ok [{ kind := "monitor".toList,
                 monthly_saving := none,
                 annual_saving := none,
                 projection_10y := none,
                 confidence := 0.5,
                 tx_ids := tx_ids.take 5,
                 recipe_in_body := false }]
    else
      if sample_enriched.spending_class = some ("want".toList) ∧
          3 ≤ g.transactions.length then
        if est_monthly < 5 then .ok []
        else
          let cut_amount := est_monthly * 0.3
          let projection := future_value_monthly_contrib cut_amount 0.07 10
          let merchant_name :=
            pyOrOpt sample_enriched.merchant
              (pyOrOpt g.sample_transaction.merchant_raw key)
          let recipe :=
            recipeFor (g.sample_transaction.description ++ " from ".toList ++ merchant_name)
              merchant_name
          .ok [{ kind := "cutback".toList,
                 monthly_saving := some cut_amount,
                 annual_saving := some (cut_amount * 12),
                 projection_10y := some projection,
                 confidence := 0.6,
                 tx_ids := tx_ids.take 10,
                 recipe_in_body := recipe.is_viable }]
      else .ok []

/-- The whole group loop of `main.run_advice_analysis`, over the built
`groups` dict (as an association list). The source has no exception handling
around the loop and `db.commit()` only runs after it, so an exception in any
iteration aborts the request and commits nothing: that is the `.error` case,
which carries no insights. `.ok l` means the run commits exactly `l`. -/
def run_advice_analysis (days : ℤ) (alt : PyStr → ℚ → Except Unit PyStr)
    (recipeFor : PyStr → PyStr → Recipe) :
    List (PyStr × TxGroup) → Except Unit (List AdviceInsight)
  | [] => .ok []
  | (key, g) :: rest =>
    match processGroup days alt recipeFor key g with
    | .error e => .error e
    | .ok ins =>
      match run_advice_analysis days alt recipeFor rest with
      | .error e => .error e
      | .ok more => .ok (ins ++ more)

/-! ### Branch equations for `processGroup` (shared helper lemmas) -/

theorem processGroup_error_eq (days : ℤ) (alt : PyStr → ℚ → Except Unit PyStr)
    (recipeFor : PyStr → PyStr → Recipe) (key : PyStr) (g : TxGroup)
    (enr : EnrichedTransaction) (e : Unit)
    (henr : g.sample_enrichment = some enr)
    (hsub : enr.is_subscription = true)
    (halt : alt key (monthly_cost_of days g) = .error e) :
    processGroup days alt recipeFor key g = .error e := by
  simp only [processGroup, henr, hsub, if_true, halt]

theorem processGroup_switch_eq (days : ℤ) (alt : PyStr → ℚ → Except Unit PyStr)
    (recipeFor : PyStr → PyStr → Recipe) (key : PyStr) (g : TxGroup)
    (enr : EnrichedTransaction) (reply : PyStr)
    (henr : g.sample_enrichment = some enr)
    (hsub : enr.is_subscription = true)
    (halt : alt key (monthly_cost_of days g) = .ok reply)
    (hic : indicates_cheaper reply = true) :
    processGroup days alt recipeFor key g =
      .ok [{ kind := "switch".toList,
             monthly_saving := some (monthly_cost_of days g * 0.2),
             annual_saving := some (monthly_cost_of days g * 0.2 * 12),
             projection_10y := some
               (future_value_monthly_contrib (monthly_cost_of days g * 0.2) 0.07 10),
             confidence := 0.75,
             tx_ids := (g.transactions.map (fun t => t.id)).take 5,
             recipe_in_body := false }] := by
  simp only [processGroup, henr, hsub, if_true, halt, hic]

theorem processGroup_monitor_eq (days : ℤ) (alt : PyStr → ℚ → Except Unit PyStr)
    (recipeFor : PyStr → PyStr → Recipe) (key : PyStr) (g : TxGroup)
    (enr : EnrichedTransaction) (reply : PyStr)
    (henr : g.sample_enrichment = some enr)
    (hsub : enr.is_subscription = true)
    (halt : alt key (monthly_cost_of days g) = .ok reply)
    (hic : indicates_cheaper reply = false) :
    processGroup days alt recipeFor key g =
      .ok [{ kind := "monitor".toList, monthly_saving := none, annual_saving := none,
             projection_10y := none, confidence := 0.5,
             tx_ids := (g.transactions.map (fun t => t.id)).take 5,
             recipe_in_body := false }] := by
  simp only [processGroup, henr, hsub, if_true, halt, hic, Bool.false_eq_true, if_false]

theorem processGroup_cutback_eq (days : ℤ) (alt : PyStr → ℚ → Except Unit PyStr)
    (recipeFor : PyStr → PyStr → Recipe) (key : PyStr) (g : TxGroup)
    (enr : EnrichedTransaction)
    (henr : g.sample_enrichment = some enr)
    (hsub : enr.is_subscription = false)
    (hwant : enr.spending_class = some ("want".toList))
    (hlen : 3 ≤ g.transactions.length)
    (hest : 5 ≤ estimate_monthly_from_window g.total_amount days) :
    processGroup days alt recipeFor key g =
      .ok [{ kind := "cutback".toList,
             monthly_saving := some (estimate_monthly_from_window g.total_amount days * 0.3),
             annual_saving := some (estimate_monthly_from_window g.total_amount days * 0.3 * 12),
             projection_10y := some (future_value_monthly_contrib
               (estimate_monthly_from_window g.total_amount days * 0.3) 0.07 10),
             confidence := 0.6,
             tx_ids := (g.transactions.map (fun t => t.id)).take 10,
             recipe_in_body := (recipeFor
               (g.sample_transaction.description ++ " from ".toList ++
                 pyOrOpt enr.merchant (pyOrOpt g.sample_transaction.merchant_raw key))
               (pyOrOpt enr.merchant (pyOrOpt g.sample_transaction.merchant_raw key))).is_viable }] := by
  simp only [processGroup, henr, hsub, Bool.false_eq_true, if_false]
  rw [if_pos ⟨hwant, hlen⟩, if_neg (not_lt.mpr hest)]

theorem processGroup_skip_of_est_lt (days : ℤ) (alt : PyStr → ℚ → Except Unit PyStr)
    (recipeFor : PyStr → PyStr → Recipe) (key : PyStr) (g : TxGroup)
    (enr : EnrichedTransaction)
    (henr : g.sample_enrichment = some enr)
    (hsub : enr.is_subscription = false)
    (hest : estimate_monthly_from_window g.total_amount days < 5) :
    processGroup days alt recipeFor key g = .ok [] := by
  simp only [processGroup, henr, hsub, Bool.false_eq_true, if_false]
  by_cases hw : enr.spending_class = some ("want".toList) ∧ 3 ≤ g.transactions.length
  · rw [if_pos hw, if_pos hest]
  · rw [if_neg hw]

theorem processGroup_skip_of_not_freq_want (days : ℤ) (alt : PyStr → ℚ → Except Unit PyStr)
    (recipeFor : PyStr → PyStr → Recipe) (key : PyStr) (g : TxGroup)
    (enr : EnrichedTransaction)
    (henr : g.sample_enrichment = some enr)
    (hsub : enr.is_subscription = false)
    (hw : ¬ (enr.spending_class = some ("want".toList) ∧ 3 ≤ g.transactions.length)) :
    processGroup days alt recipeFor key g = .ok [] := by
  simp only [processGroup, henr, hsub, Bool.false_eq_true, if_false]
  rw [if_neg hw]

/-! ### Claim C4 — subscription groups -/

/-- **C4.** For every group whose sample enrichment marks a subscription and
whose advisory call returns a reply: the monthly cost used is
`monthly_cost_of` (monthly estimate when the group has more than one
transaction, else the absolute raw sample amount — that is its definition);
when the reply indicates a cheaper alternative a `switch` insight is emitted
with `monthly_saving = 0.2 * monthly cost`, `annual_saving = 12 *
monthly_saving` and a 10-year compounded projection; otherwise a `monitor`
insight with no saving figures. -/
theorem subscription_insight_spec (days : ℤ) (alt : PyStr → ℚ → Except Unit PyStr)
    (recipeFor : PyStr → PyStr → Recipe) (key : PyStr) (g : TxGroup)
    (enr : EnrichedTransaction) (reply : PyStr)
    (henr : g.sample_enrichment = some enr)
    (hsub : enr.is_subscription = true)
    (halt : alt key (monthly_cost_of days g) = .ok reply) :
    (monthly_cost_of days g =
      if 1 < g.transactions.length then estimate_monthly_from_window g.total_amount days
      else |g.sample_transaction.amount|) ∧
    (indicates_cheaper reply = true →
      processGroup days alt recipeFor key g =
        .ok [{ kind := "switch".toList,
               monthly_saving := some (monthly_cost_of days g * 0.2),
               annual_saving := some (monthly_cost_of days g * 0.2 * 12),
               projection_10y := some
                 (future_value_monthly_contrib (monthly_cost_of days g * 0.2) 0.07 10),
               confidence := 0.75,
               tx_ids := (g.transactions.map (fun t => t.id)).take 5,
               recipe_in_body := false }]) ∧
    (indicates_cheaper reply = false →
      processGroup days alt recipeFor key g =
        .ok [{ kind := "monitor".toList, monthly_saving := none, annual_saving := none,
               projection_10y := none, confidence := 0.5,
               tx_ids := (g.transactions.map (fun t => t.id)).take 5,
               recipe_in_body := false }]) :=
  ⟨rfl,
   fun hic => processGroup_switch_eq days alt recipeFor key g enr reply henr hsub halt hic,
   fun hic => processGroup_monitor_eq days alt recipeFor key g enr reply henr hsub halt hic⟩

/-- Advisory reply used in the C4 witness: indicates a cheaper alternative. -/
def reply4 : PyStr := "Alternative: Prime Video at 7 euro per month.".toList

/-- A transaction of the C4 witness group (€15 spend each). -/
def tx4 (i : ℕ) : Transaction := ⟨i, -15, "NETFLIX.COM".toList, some ("NETFLIX.COM".toList)⟩

/-- Enrichment of the C4 witness group: a subscription. -/
def enr4 : EnrichedTransaction :=
  ⟨some ("Netflix".toList), some ("Entertainment".toList), true, none⟩

/-- C4 witness group: 4 transactions totaling €60. -/
def g4 : TxGroup := ⟨[tx4 1, tx4 2, tx4 3, tx4 4], 60, tx4 1, some enr4⟩

/-- External-call outcomes for the C4 witness. -/
def alt4 : PyStr → ℚ → Except Unit PyStr := fun _ _ => .ok reply4

/-- Recipe oracle for the C4 witness. -/
def rec4 : PyStr → PyStr → Recipe := fun _ _ => ⟨true⟩

/-- Witness for C4, the spec scenario: 4 transactions totaling €60 over a
90-day window give monthly estimate €20; a cheaper alternative yields a
`switch` insight with `monthly_saving = 4` and `annual_saving = 48`. -/
theorem subscription_insight_witness :
    processGroup 90 alt4 rec4 ("netflix com".toList) g4 =
      .ok [{ kind := "switch".toList, monthly_saving := some 4, annual_saving := some 48,
             projection_10y := some (future_value_monthly_contrib 4 0.07 10),
             confidence := 0.75, tx_ids := [1, 2, 3, 4], recipe_in_body := false }] := by
  have h := (subscription_insight_spec 90 alt4 rec4 ("netflix com".toList) g4 enr4 reply4
    rfl rfl rfl).2.1 (by decide)
  rw [h]
  norm_num [monthly_cost_of, estimate_monthly_from_window, g4, tx4]

/-! ### Claim C5 — frequent "want" groups -/

/-- **C5.** For every non-subscription group classified `want`: with at
least 3 transactions and monthly estimate at least €5, a `cutback` insight
is emitted with `monthly_saving = 0.3 * monthly estimate`,
`annual_saving = 12 * monthly_saving`, `projection_10y` the 10-year future
value of the cut amount at 7%, and the home-alternative suggestion attached
to the body exactly when the recipe card is viable; groups below the €5
threshold, or with fewer than 3 transactions, emit no insight. -/
theorem cutback_insight_spec (days : ℤ) (alt : PyStr → ℚ → Except Unit PyStr)
    (recipeFor : PyStr → PyStr → Recipe) (key : PyStr) (g : TxGroup)
    (enr : EnrichedTransaction)
    (henr : g.sample_enrichment = some enr)
    (hsub : enr.is_subscription = false)
    (hwant : enr.spending_class = some ("want".toList)) :
    (3 ≤ g.transactions.length →
      5 ≤ estimate_monthly_from_window g.total_amount days →
      processGroup days alt recipeFor key g =
        .ok [{ kind := "cutback".toList,
               monthly_saving := some (estimate_monthly_from_window g.total_amount days * 0.3),
               annual_saving := some (estimate_monthly_from_window g.total_amount days * 0.3 * 12),
               projection_10y := some (future_value_monthly_contrib
                 (estimate_monthly_from_window g.total_amount days * 0.3) 0.07 10),
               confidence := 0.6,
               tx_ids := (g.transactions.map (fun t => t.id)).take 10,
               recipe_in_body := (recipeFor
                 (g.sample_transaction.description ++ " from ".toList ++
                   pyOrOpt enr.merchant (pyOrOpt g.sample_transaction.merchant_raw key))
                 (pyOrOpt enr.merchant (pyOrOpt g.sample_transaction.merchant_raw key))).is_viable }]) ∧
    (estimate_monthly_from_window g.total_amount days < 5 →
      processGroup days alt recipeFor key g = .ok []) ∧
    (g.transactions.length < 3 →
      processGroup days alt recipeFor key g = .ok []) :=
  ⟨fun hlen hest => processGroup_cutback_eq days alt recipeFor key g enr henr hsub hwant hlen hest,
   fun hest => processGroup_skip_of_est_lt days alt recipeFor key g enr henr hsub hest,
   fun hlen => processGroup_skip_of_not_freq_want days alt recipeFor key g enr henr hsub
     (fun hc => absurd hc.2 (not_le.mpr hlen))⟩

/-- A transaction of the C5 witness group (€10 spend each). -/
def tx5 (i : ℕ) : Transaction := ⟨i, -10, "COFFEE SHOP".toList, some ("COFFEE SHOP".toList)⟩

/-- Enrichment of the C5 witness group: a `want`, not a subscription. -/
def enr5 : EnrichedTransaction :=
  ⟨some ("Coffee Shop".toList), some ("Dining".toList), false, some ("want".toList)⟩

/-- C5 witness group: 3 transactions totaling €30. -/
def g5 : TxGroup := ⟨[tx5 1, tx5 2, tx5 3], 30, tx5 1, some enr5⟩

/-- External-call outcomes for the C5 witness. -/
def alt5 : PyStr → ℚ → Except Unit PyStr := fun _ _ => .ok []

/-- Recipe oracle for the C5 witness: a viable homemade alternative. -/
def rec5 : PyStr → PyStr → Recipe := fun _ _ => ⟨true⟩

/-- Witness for C5, the spec scenario: 3 `want` transactions totaling €30
over 30 days give monthly estimate €30, cutback €9, annual €108, with the
home-alternative suggestion attached. -/
theorem cutback_insight_witness :
    processGroup 30 alt5 rec5 ("coffee shop".toList) g5 =
      .ok [{ kind := "cutback".toList, monthly_saving := some 9, annual_saving := some 108,
             projection_10y := some (future_value_monthly_contrib 9 0.07 10),
             confidence := 0.6, tx_ids := [1, 2, 3], recipe_in_body := true }] := by
  have h := (cutback_insight_spec 30 alt5 rec5 ("coffee shop".toList) g5 enr5
    rfl rfl rfl).1 (by decide) (by norm_num [estimate_monthly_from_window, g5])
  rw [h]
  norm_num [estimate_monthly_from_window, g5, tx5, rec5]

/-! ### Claim C10 — truncated transaction-id lists -/

/-- **C10.** Every insight produced by a group iteration stores a truncated
`tx_ids` list: `switch` and `monitor` insights keep at most the first 5
transaction ids of the group, `cutback` insights at most the first 10, and
every stored id belongs to a transaction of that group. -/
theorem insight_tx_ids_spec (days : ℤ) (alt : PyStr → ℚ → Except Unit PyStr)
    (recipeFor : PyStr → PyStr → Recipe) (key : PyStr) (g : TxGroup)
    (l : List AdviceInsight)
    (h : processGroup days alt recipeFor key g = .ok l) :
    ∀ ins ∈ l,
      ((ins.kind = "switch".toList ∨ ins.kind = "monitor".toList) →
        ins.tx_ids = (g.transactions.map (fun t => t.id)).take 5) ∧
      (ins.kind = "cutback".toList →
        ins.tx_ids = (g.transactions.map (fun t => t.id)).take 10) ∧
      (∀ i ∈ ins.tx_ids, ∃ t ∈ g.transactions, t.id = i) := by
  have hmem5 : ∀ i ∈ (g.transactions.map (fun t => t.id)).take 5,
      ∃ t ∈ g.transactions, t.id = i := by
    intro i hi
    obtain ⟨t, ht, rfl⟩ := List.mem_map.mp (List.mem_of_mem_take hi)
    exact ⟨t, ht, rfl⟩
  have hmem10 : ∀ i ∈ (g.transactions.map (fun t => t.id)).take 10,
      ∃ t ∈ g.transactions, t.id = i := by
    intro i hi
    obtain ⟨t, ht, rfl⟩ := List.mem_map.mp (List.mem_of_mem_take hi)
    exact ⟨t, ht, rfl⟩
  revert h
  unfold processGroup
  cases hg : g.sample_enrichment with
  | none =>
    intro h ins hins
    injection h with h2
    subst h2
    simp at hins
  | some enr =>
    simp only []
    by_cases hs : enr.is_subscription
    · simp only [hs, if_true]
      cases halt : alt key (monthly_cost_of days g) with
      | error e =>
        intro h
        exact absurd h (by simp)
      | ok reply =>
        by_cases hic : indicates_cheaper reply
        · simp only [hic, if_true]
          intro h ins hins
          injection h with h2
          subst h2
          rcases List.mem_singleton.mp hins with rfl
          refine ⟨fun _ => rfl, fun hk => ?_, hmem5⟩
          simp at hk
        · simp only [hic, Bool.false_eq_true, if_false]
          intro h ins hins
          injection h with h2
          subst h2
          rcases List.mem_singleton.mp hins with rfl
          refine ⟨fun _ => rfl, fun hk => ?_, hmem5⟩
          simp at hk
    · simp only [hs, Bool.false_eq_true, if_false]
      by_cases hw : enr.spending_class = some ("want".toList) ∧ 3 ≤ g.transactions.length
      · rw [if_pos hw]
        by_cases hest : estimate_monthly_from_window g.total_amount days < 5
        · rw [if_pos hest]
          intro h ins hins
          injection h with h2
          subst h2
          simp at hins
        · rw [if_neg hest]
          intro h ins hins
          injection h with h2
          subst h2
          rcases List.mem_singleton.mp hins with rfl
          refine ⟨fun hk => ?_, fun _ => rfl, hmem10⟩
          rcases hk with hk | hk <;> simp at hk
      · rw [if_neg hw]
        intro h ins hins
        injection h with h2
        subst h2
        simp at hins

/-- C10 witness group: two transactions (subscription). -/
def tx10a : Transaction := ⟨21, -9, "SPOTIFY".toList, none⟩

/-- Second transaction of the C10 witness group. -/
def tx10b : Transaction := ⟨22, -9, "SPOTIFY".toList, none⟩

/-- Enrichment of the C10 witness group. -/
def enr10 : EnrichedTransaction := ⟨some ("Spotify".toList), none, true, none⟩

/-- C10 witness group. -/
def g10 : TxGroup := ⟨[tx10a, tx10b], 18, tx10a, some enr10⟩

/-- External-call outcomes for the C10 witness (empty reply, so the monitor
branch fires). -/
def alt10 : PyStr → ℚ → Except Unit PyStr := fun _ _ => .ok []

/-- Recipe oracle for the C10 witness. -/
def rec10 : PyStr → PyStr → Recipe := fun _ _ => ⟨true⟩

/-- Witness for C10, applied to a concrete monitor-producing iteration. -/
theorem insight_tx_ids_witness :
    ({ kind := "monitor".toList, monthly_saving := none, annual_saving := none,
       projection_10y := none, confidence := 0.5,
       tx_ids := (g10.transactions.map (fun t => t.id)).take 5,
       recipe_in_body := false } : AdviceInsight).tx_ids = [21, 22] := by
  have h := processGroup_monitor_eq 90 alt10 rec10 ("spotify".toList) g10 enr10 []
    rfl rfl rfl (by decide)
  have h2 := insight_tx_ids_spec 90 alt10 rec10 ("spotify".toList) g10 _ h _
    (List.mem_singleton.mpr rfl)
  have h3 := h2.1 (Or.inr rfl)
  rw [h3]
  simp [g10, tx10a, tx10b]

/-! ### Claim C7 — future-value formula and projections -/

/-- **C7.** The future-value helper satisfies the annuity formula: at rate 0
it returns `c * years * 12`; at any admissible nonzero rate it returns
`c * (((1 + r)^n - 1) / r)` with `r = rate/12`, `n = years*12`. Every
insight emitted with a monthly saving `m` carries
`annual_saving = m * 12` and `projection_10y = FV(m, 7%, 10 years)`.
Numerically, `FV(100, 0.07, 10)` is within 1 of €17,308. -/
theorem future_value_spec :
    (∀ (c : ℚ) (years : ℤ),
      future_value_monthly_contrib c 0 years = c * ((years * 12 : ℤ) : ℚ)) ∧
    (∀ (c rate : ℚ) (years : ℤ), -1 < rate → rate ≠ 0 →
      future_value_monthly_contrib c rate years =
        c * (((1 + rate / 12) ^ (years * 12) - 1) / (rate / 12))) ∧
    (∀ (days : ℤ) (alt : PyStr → ℚ → Except Unit PyStr)
        (recipeFor : PyStr → PyStr → Recipe) (key : PyStr) (g : TxGroup)
        (l : List AdviceInsight) (ins : AdviceInsight) (m : ℚ),
      processGroup days alt recipeFor key g = .ok l → ins ∈ l →
      ins.monthly_saving = some m →
      ins.annual_saving = some (m * 12) ∧
      ins.projection_10y = some (future_value_monthly_contrib m 0.07 10)) ∧
    |future_value_monthly_contrib 100 0.07 10 - 17308| < 1 := by
  refine ⟨?_, ?_, ?_, ?_⟩
  · intro c years
    unfold future_value_monthly_contrib
    rw [if_neg (by norm_num)]
    simp only []
    rw [if_pos (by norm_num)]
  · intro c rate years h1 h2
    unfold future_value_monthly_contrib
    rw [if_neg (not_le.mpr h1)]
    simp only []
    rw [if_neg (div_ne_zero h2 (by norm_num))]
  · intro days alt recipeFor key g l ins m h hins hm
    revert h
    unfold processGroup
    cases hg : g.sample_enrichment with
    | none =>
      intro h
      injection h with h2
      subst h2
      simp at hins
    | some enr =>
      simp only []
      by_cases hs : enr.is_subscription
      · simp only [hs, if_true]
        cases halt : alt key (monthly_cost_of days g) with
        | error e =>
          intro h
          exact absurd h (by simp)
        | ok reply =>
          by_cases hic : indicates_cheaper reply
          · simp only [hic, if_true]
            intro h
            injection h with h2
            subst h2
            rcases List.mem_singleton.mp hins with rfl
            have hm2 : some (monthly_cost_of days g * 0.2) = some m := hm
            obtain rfl := (Option.some.inj hm2).symm
            exact ⟨rfl, rfl⟩
          · simp only [hic, Bool.false_eq_true, if_false]
            intro h
            injection h with h2
            subst h2
            rcases List.mem_singleton.mp hins with rfl
            exact absurd hm (by simp)
      · simp only [hs, Bool.false_eq_true, if_false]
        by_cases hw : enr.spending_class = some ("want".toList) ∧ 3 ≤ g.transactions.length
        · rw [if_pos hw]
          by_cases hest : estimate_monthly_from_window g.total_amount days < 5
          · rw [if_pos hest]
            intro h
            injection h with h2
            subst h2
            simp at hins
          · rw [if_neg hest]
            intro h
            injection h with h2
            subst h2
            rcases List.mem_singleton.mp hins with rfl
            have hm2 : some (estimate_monthly_from_window g.total_amount days * 0.3) = some m := hm
            obtain rfl := (Option.some.inj hm2).symm
            exact ⟨rfl, rfl⟩
        · rw [if_neg hw]
          intro h
          injection h with h2
          subst h2
          simp at hins
  · unfold future_value_monthly_contrib
    rw [if_neg (by norm_num)]
    simp only []
    rw [if_neg (by norm_num)]
    rw [show ((10 : ℤ) * 12) = ((120 : ℕ) : ℤ) from by norm_num, zpow_natCast]
    rw [abs_lt]
    constructor <;> norm_num

/-- Witness for C7: the rate-0 clause at `(5, 3 years)` and the nonzero-rate
clause at `(100, 7%, 10 years)`, hypotheses discharged numerically. -/
theorem future_value_witness :
    future_value_monthly_contrib 5 0 3 = 5 * ((3 * 12 : ℤ) : ℚ) ∧
    future_value_monthly_contrib 100 0.07 10 =
      100 * (((1 + 0.07 / 12) ^ ((10 : ℤ) * 12) - 1) / (0.07 / 12)) :=
  ⟨future_value_spec.1 5 3,
   future_value_spec.2.1 100 0.07 10 (by norm_num) (by norm_num)⟩

/-! ### Claim C1 — failure semantics of the batch run -/

/-- Advisory reply indicating no cheaper alternative (the soft-failure text
`find_cheaper_alt` prompts for). -/
def replyNo : PyStr :=
  "No known cheaper alternatives available in the Irish market.".toList

/-- Transaction of the C1 group whose advisory call raises. -/
def tx1a : Transaction := ⟨31, -12, "NETFLIX".toList, none⟩

/-- Transaction of the C1 group whose advisory call succeeds. -/
def tx1b : Transaction := ⟨32, -8, "SPOTIFY".toList, none⟩

/-- Enrichment of the first C1 group (subscription). -/
def enr1a : EnrichedTransaction := ⟨some ("Netflix".toList), none, true, none⟩

/-- Enrichment of the second C1 group (subscription). -/
def enr1b : EnrichedTransaction := ⟨some ("Spotify".toList), none, true, none⟩

/-- First C1 group. -/
def g1a : TxGroup := ⟨[tx1a], 12, tx1a, some enr1a⟩

/-- Second C1 group. -/
def g1b : TxGroup := ⟨[tx1b], 8, tx1b, some enr1b⟩

/-- External advisory outcome for C1: the call raises for the `netflix`
group and returns a reply for every other group. -/
def alt1 : PyStr → ℚ → Except Unit PyStr :=
  fun key _ => if key = "netflix".toList then .error () else .ok replyNo

/-- Recipe oracle for C1 (never consulted by subscription groups). -/
def rec1 : PyStr → PyStr → Recipe := fun _ _ => ⟨true⟩

/-- **C1** (behavior of the code at the failing input). In a run over two
groups where the external advisory call raises for the first group, the
whole batch aborts (`.error`): no group is skipped and nothing is
persisted — even though the second group on its own produces and would
persist a `monitor` insight. This contradicts the claimed skip-and-continue
failure semantics. -/
theorem run_advice_analysis_abort_on_failure :
    run_advice_analysis 90 alt1 rec1
        [("netflix".toList, g1a), ("spotify".toList, g1b)] = .error () ∧
    run_advice_analysis 90 alt1 rec1 [("spotify".toList, g1b)] =
      .ok [{ kind := "monitor".toList, monthly_saving := none, annual_saving := none,
             projection_10y := none, confidence := 0.5, tx_ids := [32],
             recipe_in_body := false }] := by
  have halt1 : alt1 ("netflix".toList) (monthly_cost_of 90 g1a) = .error () := by
    unfold alt1
    rw [if_pos rfl]
  have halt2 : alt1 ("spotify".toList) (monthly_cost_of 90 g1b) = .ok replyNo := by
    unfold alt1
    rw [if_neg (by decide)]
  have he : processGroup 90 alt1 rec1 ("netflix".toList) g1a = .error () :=
    processGroup_error_eq 90 alt1 rec1 ("netflix".toList) g1a enr1a () rfl rfl halt1
  have hm : processGroup 90 alt1 rec1 ("spotify".toList) g1b =
      .ok [{ kind := "monitor".toList, monthly_saving := none, annual_saving := none,
             projection_10y := none, confidence := 0.5,
             tx_ids := (g1b.transactions.map (fun t => t.id)).take 5,
             recipe_in_body := false }] :=
    processGroup_monitor_eq 90 alt1 rec1 ("spotify".toList) g1b enr1b replyNo
      rfl rfl halt2 (by decide)
  constructor
  · simp only [run_advice_analysis, he]
  · simp only [run_advice_analysis, hm]
    simp [g1b, tx1b]

/-! ### `advisor.get_benchmark_alt` — benchmark lookup (claim C6) -/

/-- A row of the `provider_benchmarks` reference table, as selected by
`get_benchmark_alt` (`SELECT provider, plan, monthly_price, currency ...
WHERE region=%s`): the model takes the already-region-filtered rows. -/
structure ProviderBenchmark where
  provider : PyStr
  plan : PyStr
  monthly_price : ℚ
  currency : PyStr
deriving DecidableEq

/-- The `{"provider", "plan", "price", "currency"}` dicts the function
builds for the current plan and the alternative. -/
structure PlanInfo where
  provider : PyStr
  plan : PyStr
  price : ℚ
  currency : PyStr
deriving DecidableEq

/-- The dict built from a table row. -/
def planOf (r : ProviderBenchmark) : PlanInfo :=
  ⟨r.provider, r.plan, r.monthly_price, r.currency⟩

/-- The `for ... if pr.lower() in hint: current = ...; break` scan:
first row whose lower-cased provider name occurs in the hint. -/
def findCurrent (hint : PyStr) : List ProviderBenchmark → Option PlanInfo
  | [] => none
  | r :: rs => if pyIn (pyLower r.provider) hint then some (planOf r) else findCurrent hint rs

/-- Resolution of the current plan: the table scan, then the hardcoded
Netflix/Vodafone soft guesses, else nothing. -/
def resolve_current (hint : PyStr) (rows : List ProviderBenchmark) : Option PlanInfo :=
  match findCurrent hint rows with
  | some c => some c
  | none =>
    if pyIn ("netflix".toList) hint then
      some ⟨"Netflix".toList, "Standard".toList, 12.99, "EUR".toList⟩
    else if pyIn ("vodafone".toList) hint then
      some ⟨"Vodafone".toList, "SIM-only".toList, 18, "EUR".toList⟩
    else none

/-- The second scan:
```python
for pr, plan, price, curr in rows:
    if pr != current["provider"] and price < current["price"]:
        if not cheaper or price < cheaper["price"]:
            cheaper = {...}
```
-/
def pickCheaper (current : PlanInfo) :
    List ProviderBenchmark → Option PlanInfo → Option PlanInfo
  | [], cheaper => cheaper
  | r :: rs, cheaper =>
    pickCheaper current rs
      (if r.provider ≠ current.provider ∧ r.monthly_price < current.price then
        match cheaper with
        | none => some (planOf r)
        | some c => if r.monthly_price < c.price then some (planOf r) else some c
      else cheaper)

/-- Source `advisor.get_benchmark_alt` over the region's rows. -/
def get_benchmark_alt (rows : List ProviderBenchmark) (provider_hint : PyStr) :
    Option (PlanInfo × PlanInfo) :=
  let hint := pyLower provider_hint
  if rows = [] then none
  else
    match resolve_current hint rows with
    | none => none
    | some current =>
      match pickCheaper current rows none with
      | none => none
      | some cheaper => some (current, cheaper)

theorem pickCheaper_source (current : PlanInfo) (rows : List ProviderBenchmark) :
    ∀ (acc : Option PlanInfo) (c : PlanInfo), pickCheaper current rows acc = some c →
      acc = some c ∨ ∃ r ∈ rows,
        (r.provider ≠ current.provider ∧ r.monthly_price < current.price) ∧ c = planOf r := by
  induction rows with
  | nil =>
    intro acc c h
    exact Or.inl h
  | cons r rs ih =>
    intro acc c h
    simp only [pickCheaper] at h
    rcases ih _ c h with h2 | ⟨r2, hr2, hv2, rfl⟩
    · by_cases hc : r.provider ≠ current.provider ∧ r.monthly_price < current.price
      · rw [if_pos hc] at h2
        cases acc with
        | none =>
          simp only [] at h2
          refine Or.inr ⟨r, List.mem_cons_self r rs, hc, ?_⟩
          exact (Option.some.inj h2).symm
        | some c0 =>
          simp only [] at h2
          by_cases hlt : r.monthly_price < c0.price
          · rw [if_pos hlt] at h2
            exact Or.inr ⟨r, List.mem_cons_self r rs, hc, (Option.some.inj h2).symm⟩
          · rw [if_neg hlt] at h2
            exact Or.inl h2
      · rw [if_neg hc] at h2
        exact Or.inl h2
    · exact Or.inr ⟨r2, List.mem_cons_of_mem r hr2, hv2, rfl⟩

theorem pickCheaper_min (current : PlanInfo) (rows : List ProviderBenchmark) :
    ∀ (acc : Option PlanInfo) (c : PlanInfo), pickCheaper current rows acc = some c →
      (∀ c0, acc = some c0 → c.price ≤ c0.price) ∧
      (∀ r ∈ rows, r.provider ≠ current.provider → r.monthly_price < current.price →
        c.price ≤ r.monthly_price) := by
  induction rows with
  | nil =>
    intro acc c h
    have h2 : acc = some c := h
    refine ⟨fun c0 h0 => ?_, fun r hr => absurd hr (List.not_mem_nil r)⟩
    rw [h0] at h2
    exact le_of_eq (congrArg PlanInfo.price (Option.some.inj h2)).symm
  | cons r rs ih =>
    intro acc c h
    by_cases hc : r.provider ≠ current.provider ∧ r.monthly_price < current.price
    · cases acc with
      | none =>
        have h3 : pickCheaper current rs
            (if r.provider ≠ current.provider ∧ r.monthly_price < current.price then
              some (planOf r) else none) = some c := h
        rw [if_pos hc] at h3
        obtain ⟨ihacc, ihrows⟩ := ih _ c h3
        have hhead : c.price ≤ r.monthly_price := ihacc (planOf r) rfl
        refine ⟨fun c0 h0 => (nomatch h0), fun r2 hr2 hp2 hlt2 => ?_⟩
        rcases List.mem_cons.mp hr2 with rfl | hr2
        · exact hhead
        · exact ihrows r2 hr2 hp2 hlt2
      | some c0 =>
        have h3 : pickCheaper current rs
            (if r.provider ≠ current.provider ∧ r.monthly_price < current.price then
              (if r.monthly_price < c0.price then some (planOf r) else some c0)
            else some c0) = some c := h
        rw [if_pos hc] at h3
        by_cases hlt : r.monthly_price < c0.price
        · rw [if_pos hlt] at h3
          obtain ⟨ihacc, ihrows⟩ := ih _ c h3
          have hhead : c.price ≤ r.monthly_price := ihacc (planOf r) rfl
          refine ⟨fun c1 h1 => ?_, fun r2 hr2 hp2 hlt2 => ?_⟩
          · rw [Option.some.inj h1] at hlt
            exact le_trans hhead (le_of_lt hlt)
          · rcases List.mem_cons.mp hr2 with rfl | hr2
            · exact hhead
            · exact ihrows r2 hr2 hp2 hlt2
        · rw [if_neg hlt] at h3
          obtain ⟨ihacc, ihrows⟩ := ih _ c h3
          have hacc0 : c.price ≤ c0.price := ihacc c0 rfl
          refine ⟨fun c1 h1 => ?_, fun r2 hr2 hp2 hlt2 => ?_⟩
          · rw [← Option.some.inj h1]
            exact hacc0
          · rcases List.mem_cons.mp hr2 with rfl | hr2
            · exact le_trans hacc0 (not_lt.mp hlt)
            · exact ihrows r2 hr2 hp2 hlt2
    · cases acc with
      | none =>
        have h3 : pickCheaper current rs
            (if r.provider ≠ current.provider ∧ r.monthly_price < current.price then
              some (planOf r) else none) = some c := h
        rw [if_neg hc] at h3
        obtain ⟨ihacc, ihrows⟩ := ih _ c h3
        refine ⟨fun c0 h0 => (nomatch h0), fun r2 hr2 hp2 hlt2 => ?_⟩
        rcases List.mem_cons.mp hr2 with rfl | hr2
        · exact absurd ⟨hp2, hlt2⟩ hc
        · exact ihrows r2 hr2 hp2 hlt2
      | some c0 =>
        have h3 : pickCheaper current rs
            (if r.provider ≠ current.provider ∧ r.monthly_price < current.price then
              (if r.monthly_price < c0.price then some (planOf r) else some c0)
            else some c0) = some c := h
        rw [if_neg hc] at h3
        obtain ⟨ihacc, ihrows⟩ := ih _ c h3
        refine ⟨fun c1 h1 => ihacc c1 h1, fun r2 hr2 hp2 hlt2 => ?_⟩
        rcases List.mem_cons.mp hr2 with rfl | hr2
        · exact absurd ⟨hp2, hlt2⟩ hc
        · exact ihrows r2 hr2 hp2 hlt2

theorem pickCheaper_none_of_no_valid (current : PlanInfo) (rows : List ProviderBenchmark)
    (h : ∀ r ∈ rows, ¬ (r.provider ≠ current.provider ∧ r.monthly_price < current.price)) :
    pickCheaper current rows none = none := by
  induction rows with
  | nil => rfl
  | cons r rs ih =>
    simp only [pickCheaper]
    rw [if_neg (h r (List.mem_cons_self r rs))]
    exact ih (fun r2 hr2 => h r2 (List.mem_cons_of_mem r hr2))

/-- **C6.** `get_benchmark_alt` resolves the current plan via
`resolve_current` (first row whose lower-cased provider name is contained in
the lower-cased hint, with the hardcoded Netflix/Vodafone fallbacks — that
is its definition); when it returns a pair, the alternative is a table row
distinct from the current provider with a strictly lower price, minimal
among all such rows; it returns `none` on an empty table, when no current
plan resolves, and when no strictly cheaper row exists. -/
theorem get_benchmark_alt_spec (rows : List ProviderBenchmark) (provider_hint : PyStr) :
    (∀ cur alternative, get_benchmark_alt rows provider_hint = some (cur, alternative) →
      resolve_current (pyLower provider_hint) rows = some cur ∧
      (∃ r ∈ rows, (r.provider ≠ cur.provider ∧ r.monthly_price < cur.price) ∧
        alternative = planOf r) ∧
      (∀ r ∈ rows, r.provider ≠ cur.provider → r.monthly_price < cur.price →
        alternative.price ≤ r.monthly_price)) ∧
    (rows = [] → get_benchmark_alt rows provider_hint = none) ∧
    (resolve_current (pyLower provider_hint) rows = none →
      get_benchmark_alt rows provider_hint = none) ∧
    (∀ cur, resolve_current (pyLower provider_hint) rows = some cur →
      (∀ r ∈ rows, ¬ (r.provider ≠ cur.provider ∧ r.monthly_price < cur.price)) →
      get_benchmark_alt rows provider_hint = none) := by
  refine ⟨?_, ?_, ?_, ?_⟩
  · intro cur alternative h
    unfold get_benchmark_alt at h
    simp only [] at h
    by_cases hrows : rows = []
    · rw [if_pos hrows] at h
      cases h
    · rw [if_neg hrows] at h
      cases hres : resolve_current (pyLower provider_hint) rows with
      | none =>
        rw [hres] at h
        cases h
      | some c =>
        rw [hres] at h
        simp only [] at h
        cases hpc : pickCheaper c rows none with
        | none =>
          rw [hpc] at h
          cases h
        | some ch =>
          rw [hpc] at h
          simp only [Option.some.injEq, Prod.mk.injEq] at h
          obtain ⟨rfl, rfl⟩ := h
          refine ⟨rfl, ?_, ?_⟩
          · rcases pickCheaper_source c rows none ch hpc with h2 | h2
            · cases h2
            · exact h2
          · exact (pickCheaper_min c rows none ch hpc).2
  · intro hrows
    subst hrows
    rfl
  · intro hres
    unfold get_benchmark_alt
    simp only []
    by_cases hrows : rows = []
    · rw [if_pos hrows]
    · rw [if_neg hrows, hres]
  · intro cur hres hnone
    unfold get_benchmark_alt
    simp only []
    by_cases hrows : rows = []
    · rw [if_pos hrows]
    · rw [if_neg hrows, hres]
      simp only []
      rw [pickCheaper_none_of_no_valid cur rows hnone]

/-- C6 witness row: provider A at €20. -/
def rowA : ProviderBenchmark := ⟨"Alpha".toList, "Basic".toList, 20, "EUR".toList⟩

/-- C6 witness row: provider B at €15. -/
def rowB : ProviderBenchmark := ⟨"Beta".toList, "Value".toList, 15, "EUR".toList⟩

/-- Witness for C6, the spec scenario: provider A at €20 and provider B at
€15; a hint matching A returns alternative B, a €5 saving, and the
minimality clause of the claim theorem is discharged at row B. -/
theorem get_benchmark_alt_witness :
    get_benchmark_alt [rowA, rowB] ("Alpha Mobile".toList) = some (planOf rowA, planOf rowB) ∧
    (planOf rowA).price - (planOf rowB).price = 5 ∧
    (planOf rowB).price ≤ rowB.monthly_price := by
  have hpc : pickCheaper (planOf rowA) [rowA, rowB] none = some (planOf rowB) := by
    show pickCheaper (planOf rowA) [rowB]
        (if rowA.provider ≠ (planOf rowA).provider ∧
            rowA.monthly_price < (planOf rowA).price then
          some (planOf rowA) else none) = some (planOf rowB)
    rw [if_neg (fun hcon => hcon.1 rfl)]
    show pickCheaper (planOf rowA) []
        (if rowB.provider ≠ (planOf rowA).provider ∧
            rowB.monthly_price < (planOf rowA).price then
          some (planOf rowB) else none) = some (planOf rowB)
    rw [if_pos ⟨by decide, by norm_num [rowA, rowB, planOf]⟩]
    rfl
  have hrc : resolve_current (pyLower ("Alpha Mobile".toList)) [rowA, rowB] =
      some (planOf rowA) := by
    unfold resolve_current findCurrent
    rw [if_pos (by decide)]
  have h : get_benchmark_alt [rowA, rowB] ("Alpha Mobile".toList) =
      some (planOf rowA, planOf rowB) := by
    unfold get_benchmark_alt
    simp only []
    rw [if_neg (by simp), hrc]
    simp only []
    rw [hpc]
  refine ⟨h, by norm_num [planOf, rowA, rowB], ?_⟩
  exact ((get_benchmark_alt_spec [rowA, rowB] ("Alpha Mobile".toList)).1 _ _ h).2.2 rowB
    (by simp) (by decide) (by norm_num [rowA, rowB, planOf])

/-! ### `ai.py` — categorization with fallbacks (claim C2) -/

/-- JSON scalar values stored in categorization payloads. -/
inductive PyVal
  | vNone
  | vStr (s : String)
  | vNum (q : ℚ)
  | vBool (b : Bool)
deriving DecidableEq

/-- A parsed JSON object (Python dict) as an association list. -/
abbrev Payload := List (String × PyVal)

/-- Python dict assignment `d[k] = v`: overwrite in place, else append. -/
def pSet : Payload → String → PyVal → Payload
  | [], k, v => [(k, v)]
  | (k0, v0) :: rest, k, v =>
    if k0 = k then (k, v) :: rest else (k0, v0) :: pSet rest k v

/-- Python `d.setdefault(k, v)`: insert only when the key is absent. -/
def pSetdefault (d : Payload) (k : String) (v : PyVal) : Payload :=
  match List.lookup k d with
  | some _ => d
  | none => d ++ [(k, v)]

/-- The `required` keys of ai.py's `SCHEMA`. -/
def requiredKeys : List String :=
  ["merchant", "category", "is_subscription", "confidence", "notes"]

/-- A payload satisfies the required-field schema when all required keys
are present. -/
def schemaOK (d : Payload) : Bool :=
  requiredKeys.all (fun k => (List.lookup k d).isSome)

/-- Source `ai._no_key_fallback`. -/
def no_key_fallback : Payload :=
  [("merchant", .vNone), ("category", .vStr "Groceries"), ("subcategory", .vNone),
   ("is_subscription", .vBool false), ("confidence", .vNum 0.5),
   ("notes", .vStr "OPENAI_API_KEY missing; returned fallback.")]

/-- Source `ai._error_payload`. -/
def error_payload (msg : String) : Payload :=
  [("merchant", .vNone), ("category", .vNone), ("subcategory", .vNone),
   ("is_subscription", .vBool false), ("confidence", .vNum 0),
   ("notes", .vStr msg)]

/-- Result of `json.loads` when it succeeds: a dict, or some other JSON
value (list, number, string, ...). -/
inductive PyJson
  | obj (d : Payload)
  | nonObj
deriving DecidableEq

/-- Outcome of the Chat Completions call and response handling inside
`ai._fallback_chat_tools`: which exception the call raises, or what the
response holds (`contentReply p`: no tool call, `json.loads(mc.content)`
outcome `p` with `none` = parse failure; `toolCall p`: tool-call arguments
parse outcome). -/
inductive FBCall
  | raisesConn
  | raisesRate
  | raisesBadReq (msg : String)
  | raisesOther (msg : String)
  | noMessage (msg : String)
  | contentReply (parsed : Option PyJson)
  | toolCall (parsed : Option PyJson)
deriving DecidableEq

/-- The `if data.get("confidence") is None: data["confidence"] = 0.5` fix
(`get` yields `None` both when absent and when stored as `None`). -/
def confFix (d : Payload) : Payload :=
  match List.lookup "confidence" d with
  | none => pSet d "confidence" (.vNum 0.5)
  | some .vNone => pSet d "confidence" (.vNum 0.5)
  | some _ => d

/-- Source `ai._fallback_chat_tools` (the exception text appended to the
parse-failure message is dropped). Note the `toolCall (some nonObj)` case:
`json.loads` succeeded on the arguments but produced a non-dict, so the
subsequent `data.setdefault(...)` — outside any `try` — raises. -/
def fallback_chat_tools (hasClient : Bool) (call : FBCall) : Except Unit PyJson :=
  if !hasClient then .ok (.obj no_key_fallback)
  else
    match call with
    | .raisesConn => .ok (.obj (error_payload "OpenAI connection/timeout error."))
    | .raisesRate => .ok (.obj (error_payload "Rate limited by OpenAI — check quota/billing."))
    | .raisesBadReq m => .ok (.obj (error_payload ("OpenAI BadRequest: " ++ m)))
    | .raisesOther m => .ok (.obj (error_payload ("OpenAI error: " ++ m)))
    | .noMessage m => .ok (.obj (error_payload ("No choices/message in response: " ++ m)))
    | .contentReply none => .ok (.obj (error_payload "Model did not return a tool call."))
    | .contentReply (some j) => .ok j
    | .toolCall none => .ok (.obj (error_payload "Failed to parse tool call."))
    | .toolCall (some (.obj d)) => .ok (.obj (confFix (pSetdefault d "subcategory" .vNone)))
    | .toolCall (some .nonObj) => .error ()

/-- Outcome of the primary Responses-API call in `ai.categorize_with_openai`
(`raisesOther` also covers a `json.loads` failure on `output_text`, caught
by the same generic `except Exception`). -/
inductive PrimCall
  | raisesTypeErrRF
  | raisesTypeErrOther (msg : String)
  | raisesConn
  | raisesRate
  | raisesBadReq (msg : String)
  | raisesOther
  | returns (j : PyJson)
deriving DecidableEq

/-- Lines 203-208 of ai.py: `data.setdefault("subcategory", None)`, the
confidence fix, cache write and return. On a non-dict `data` the
`setdefault` attribute access raises. -/
def finishData : PyJson → Except Unit Payload
  | .nonObj => .error ()
  | .obj d => .ok (confFix (pSetdefault d "subcategory" .vNone))

/-- Source `ai.categorize_with_openai`, over the cache state, client
presence and the outcomes of the external calls. The `except` branches
that `return _error_payload(...)` directly bypass `finishData`; the
branches that assign `data = _fallback_chat_tools(...)` fall through to it. -/
def categorize_with_openai (cached : Option Payload) (hasClient : Bool)
    (prim : PrimCall) (fb : FBCall) : Except Unit Payload :=
  match cached with
  | some c => .ok c
  | none =>
    if !hasClient then .ok no_key_fallback
    else
      match prim with
      | .raisesTypeErrRF =>
        match fallback_chat_tools hasClient fb with
        | .error e => .error e
        | .ok j => finishData j
      | .raisesTypeErrOther m => .ok (error_payload ("TypeError: " ++ m))
      | .raisesConn => .ok (error_payload "OpenAI connection/timeout error.")
      | .raisesRate => .ok (error_payload "Rate limited by OpenAI — check quota/billing.")
      | .raisesBadReq m => .ok (error_payload ("OpenAI BadRequest: " ++ m))
      | .raisesOther =>
        match fallback_chat_tools hasClient fb with
        | .error e => .error e
        | .ok j => finishData j
      | .returns j => finishData j

/-- **C2 counterexample.** Categorization *can* raise: with a configured
client and cache miss, a primary response whose `output_text` parses to a
non-dict JSON value reaches `data.setdefault(...)` outside every `try` and
raises — so "categorization never raises" is false as stated. -/
theorem categorize_with_openai_raises :
    categorize_with_openai none true (.returns .nonObj) (.toolCall none) = .error () := rfl

/-- **C2 (amended).** On a cache miss: with no API key configured the fixed
default fallback (confidence 0.5) is returned; when the primary call raises
a recognized exception (other TypeError, connection/timeout, rate limit,
bad request) the matching error payload is returned directly; every error
payload satisfies the required-field schema with confidence 0 and carries
the explanatory note; and when the primary call fails generically (or with
the response_format TypeError) and the fallback call produces an error
payload, that payload is returned. (The original "never raises" clause is
false — see the counterexample — and a fallback reply that parses to a
non-object propagates an exception instead.) -/
theorem categorize_with_openai_fallback_spec :
    (∀ (prim : PrimCall) (fb : FBCall),
      categorize_with_openai none false prim fb = .ok no_key_fallback ∧
      schemaOK no_key_fallback = true ∧
      List.lookup "confidence" no_key_fallback = some (.vNum 0.5)) ∧
    (∀ (fb : FBCall) (m : String),
      categorize_with_openai none true (.raisesTypeErrOther m) fb =
        .ok (error_payload ("TypeError: " ++ m)) ∧
      categorize_with_openai none true .raisesConn fb =
        .ok (error_payload "OpenAI connection/timeout error.") ∧
      categorize_with_openai none true .raisesRate fb =
        .ok (error_payload "Rate limited by OpenAI — check quota/billing.") ∧
      categorize_with_openai none true (.raisesBadReq m) fb =
        .ok (error_payload ("OpenAI BadRequest: " ++ m))) ∧
    (∀ msg : String,
      schemaOK (error_payload msg) = true ∧
      List.lookup "confidence" (error_payload msg) = some (.vNum 0) ∧
      List.lookup "notes" (error_payload msg) = some (.vStr msg)) ∧
    (∀ prim : PrimCall, (prim = .raisesTypeErrRF ∨ prim = .raisesOther) →
      ∀ (fb : FBCall) (msg : String),
      fallback_chat_tools true fb = .ok (.obj (error_payload msg)) →
      categorize_with_openai none true prim fb = .ok (error_payload msg)) := by
  have hfin : ∀ msg, finishData (.obj (error_payload msg)) = .ok (error_payload msg) := by
    intro msg
    rfl
  refine ⟨?_, ?_, ?_, ?_⟩
  · intro prim fb
    exact ⟨rfl, rfl, rfl⟩
  · intro fb m
    exact ⟨rfl, rfl, rfl, rfl⟩
  · intro msg
    exact ⟨rfl, rfl, rfl⟩
  · intro prim hp fb msg hfb
    rcases hp with rfl | rfl <;>
      simp only [categorize_with_openai, Bool.not_true, Bool.false_eq_true, if_false, hfb,
        hfin msg]

/-- Witness for C2 (amended): primary call fails generically, fallback call
is rate-limited; the rate-limit error payload is returned. -/
theorem categorize_with_openai_witness :
    categorize_with_openai none true .raisesOther .raisesRate =
      .ok (error_payload "Rate limited by OpenAI — check quota/billing.") :=
  categorize_with_openai_fallback_spec.2.2.2 .raisesOther (Or.inr rfl) .raisesRate
    "Rate limited by OpenAI — check quota/billing." rfl
